import Mathlib

/-!
Verification of the read-side storage engine (LZJB codec, uberblock locator,
block reader, adaptive replacement cache) against its Rust source.

Machine integers (`usize`, `u8`, `u64`) are modelled as `Nat` with explicit
wrap-around where the source can overflow; fallible code returns
`Option`/`Except`, where `none` models a Rust panic (out-of-bounds index or
`unwrap` failure).  Release-mode semantics (wrap-around on `usize`
subtraction) is used for arithmetic that can underflow.
-/

deriving instance DecidableEq for Except

/-- Width of `usize` on the 64-bit targets this repository builds for. -/
def W : Nat := 2 ^ 64

/-- Wrapping `usize` subtraction, `a.wrapping_sub b` for `a b < W`. -/
def usub (a b : Nat) : Nat := (a + W - b) % W

/-- Modelled from the spec: `dvaddr.rs` is not under `src/`.  A device
virtual address exposes a starting sector offset and an allocated size in
sector units; equality is by raw fields. -/
structure DVAddr where
  sector : Nat
  asize : Nat
deriving DecidableEq

/-- Association-list model of a `HashMap` keyed by `DVAddr`: lookup. -/
def mlookup {β : Type} : List (DVAddr × β) → DVAddr → Option β
  | [], _ => none
  | (k, v) :: rest, a => if k = a then some v else mlookup rest a

/-- Association-list model of a `HashMap` keyed by `DVAddr`: removal. -/
def merase {β : Type} : List (DVAddr × β) → DVAddr → List (DVAddr × β)
  | [], _ => []
  | (k, v) :: rest, a => if k = a then merase rest a else (k, v) :: merase rest a

/-- Association-list model of a `HashMap` keyed by `DVAddr`: insertion
(replacing any previous binding of the key). -/
def minsert {β : Type} (m : List (DVAddr × β)) (a : DVAddr) (v : β) : List (DVAddr × β) :=
  (a, v) :: merase m a

/-- Number of bits per byte (src/lzjb.rs line 5). -/
def NBBY : Nat := 8

/-- Number of bits of a copy item holding the match length (src/lzjb.rs line 6). -/
def MATCH_BITS : Nat := 6

/-- Minimum match length (src/lzjb.rs line 7). -/
def MATCH_MIN : Nat := 3

/-- Maximum match length (src/lzjb.rs line 8): `(1 << MATCH_BITS) + (MATCH_MIN - 1)`. -/
def MATCH_MAX : Nat := (1 <<< MATCH_BITS) + (MATCH_MIN - 1)

/-- Mask for the back-reference offset (src/lzjb.rs line 9): `(1 << (16 - MATCH_BITS)) - 1`. -/
def OFFSET_MASK : Nat := (1 <<< (16 - MATCH_BITS)) - 1

/-- Size of the Lempel history table (src/lzjb.rs line 10). -/
def LEMPEL_SIZE : Nat := 1024

/-- Pointwise update of the Lempel table, modelled as a function. -/
def lempelUpdate (l : Nat → Nat) (i v : Nat) : Nat → Nat :=
  fun j => if j = i then v else l j

/-- Model of the match-length scan of src/lzjb.rs lines 94-100: starting from
`mlen`, extend while `mlen < MATCH_MAX` and `src[s + mlen] == src[c + mlen]`.
The fuel argument bounds the number of extensions; callers pass enough fuel
that it is never exhausted before `mlen` reaches `MATCH_MAX`. -/
def matchLenLoop (src : List Nat) (s c : Nat) : Nat → Nat → Nat
  | mlen, 0 => mlen
  | mlen, fuel + 1 =>
    if mlen < MATCH_MAX then
      if src.getD (s + mlen) 0 ≠ src.getD (c + mlen) 0 then mlen
      else matchLenLoop src s c (mlen + 1) fuel
    else mlen

/-- Model of the control-byte cycle bookkeeping of src/lzjb.rs lines 46-58.
`cm0` is `copymask` after the shift.  `Except.error r` means the encoder
stops: `r = some (dst, srcLen)` is the early return `Ok(self.src.len())`,
`r = none` is a panic (out-of-bounds write of the new copy-flag byte).
`Except.ok` carries the updated `(dst, dst_i, copymap, copymask)`. -/
def cycleStep (dst : List Nat) (dst_i copymap cm0 srcLen : Nat) :
    Except (Option (List Nat × Nat)) (List Nat × Nat × Nat × Nat) :=
  if cm0 = 1 <<< NBBY then
    if usub (usub dst.length 1) (2 * NBBY) ≤ dst_i then Except.error (some (dst, srcLen))
    else if dst_i < dst.length then Except.ok (dst.set dst_i 0, dst_i + 1, dst_i, 1)
    else Except.error none
  else Except.ok (dst, dst_i, copymap, cm0)

/-- Model of the encoder loop of src/lzjb.rs lines 45-120 (`LzjbEncoder::read`).
State: source, destination buffer, Lempel table, indices, copy-flag position
and mask.  Returns `some (finalDst, returnValue)` for a normal return and
`none` for a panic.  `usize` subtractions that can underflow use `usub`
(release-mode wrap-around); every slice index is bounds-checked, with `none`
modelling the panic. -/
def encLoop (src : List Nat) : List Nat → (Nat → Nat) → Nat → Nat → Nat → Nat → Nat →
    Option (List Nat × Nat)
  | dst, _, _, dst_i, _, _, 0 => some (dst, dst_i)
  | dst, lempel, src_i, dst_i, copymap, copymask, fuel + 1 =>
    if src_i < src.length then
      match cycleStep dst dst_i copymap (copymask <<< 1) src.length with
      | Except.error r => r
      | Except.ok (dst, dst_i, copymap, copymask) =>
        if usub src.length MATCH_MAX < src_i then
          -- nearing the end of the data: plain literal copy, no match search
          if dst_i < dst.length then
            encLoop src (dst.set dst_i (src.getD src_i 0)) lempel (src_i + 1) (dst_i + 1)
              copymap copymask fuel
          else none
        else
          match src.get? src_i, src.get? (src_i + 1), src.get? (src_i + 2) with
          | some s0, some s1, some s2 =>
            let hash0 := (s0 <<< 16) + (s1 <<< 8) + s2
            let hash1 := hash0 + (hash0 >>> 9)
            let hash2 := hash1 + (hash1 >>> 5)
            let hp := hash2 &&& (LEMPEL_SIZE - 1)
            let offset := usub src_i (lempel hp) &&& OFFSET_MASK
            let cpy := usub src_i offset
            let lempel2 := lempelUpdate lempel hp src_i
            if offset ≤ src_i ∧ cpy ≠ src_i ∧ src.getD src_i 0 = src.getD cpy 0 ∧
                src.getD (src_i + 1) 0 = src.getD (cpy + 1) 0 ∧
                src.getD (src_i + 2) 0 = src.getD (cpy + 2) 0 then
              if copymap < dst.length then
                let dst2 := dst.set copymap (dst.getD copymap 0 ||| copymask)
                let mlen := matchLenLoop src src_i cpy MATCH_MIN (MATCH_MAX - MATCH_MIN)
                if dst_i + 1 < dst.length then
                  let dst3 := dst2.set dst_i
                    ((((mlen - MATCH_MIN) <<< (NBBY - MATCH_BITS)) ||| (offset >>> NBBY)) % 256)
                  let dst4 := dst3.set (dst_i + 1) (offset % 256)
                  encLoop src dst4 lempel2 (src_i + mlen) (dst_i + 2) copymap copymask fuel
                else none
              else none
            else
              if dst_i < dst.length then
                encLoop src (dst.set dst_i s0) lempel2 (src_i + 1) (dst_i + 1) copymap copymask fuel
              else none
          | _, _, _ => none
    else some (dst, dst_i)

/-- Model of `LzjbEncoder::read` (src/lzjb.rs lines 27-121): LZJB-compress
`src` into `dst`.  The fuel `src.length + 1` always suffices because every
loop iteration consumes at least one source byte. -/
def LzjbEncoder.read (src dst : List Nat) : Option (List Nat × Nat) :=
  encLoop src dst (fun _ => 0) 0 0 0 (1 <<< (NBBY - 1)) (src.length + 1)

/-- Outcome of the decoder: either a normal return or the corruption error. -/
inductive DecStatus
  | ok
  | corrupt
deriving DecidableEq

/-- Model of the decoder control-byte cycle of src/lzjb.rs lines 163-169.
`cm0` is `copymask` after the shift; on a cycle boundary the next source byte
becomes the new copy map.  `none` models a panic reading past `src`. -/
def decStep (src : List Nat) (src_i copymap cm0 : Nat) : Option (Nat × Nat × Nat) :=
  if cm0 = 1 <<< NBBY then (src.get? src_i).map (fun b => (b, 1, src_i + 1))
  else some (copymap, cm0, src_i)

/-- Model of the byte-by-byte copy of src/lzjb.rs lines 181-189: copy up to
`mlen` bytes from `cpy` forward, stopping when `dst_i` reaches the end of the
destination.  Returns the updated buffer and write cursor. -/
def copyN (dst : List Nat) (dst_i cpy : Nat) : Nat → List Nat × Nat
  | 0 => (dst, dst_i)
  | m + 1 =>
    if dst.length ≤ dst_i then (dst, dst_i)
    else copyN (dst.set dst_i (dst.getD cpy 0)) (dst_i + 1) (cpy + 1) m

/-- Model of the decoder loop of src/lzjb.rs lines 162-196 (`LzjbDecoder::read`).
Returns `some (finalDst, DecStatus.ok)` on a normal return,
`some (dst, DecStatus.corrupt)` for the back-reference corruption error, and
`none` for a panic reading past `src`. -/
def decodeLoop (src : List Nat) : List Nat → Nat → Nat → Nat → Nat → Nat →
    Option (List Nat × DecStatus)
  | _, _, _, _, _, 0 => none
  | dst, src_i, dst_i, copymap, copymask, fuel + 1 =>
    if dst_i < dst.length then
      match decStep src src_i copymap (copymask <<< 1) with
      | none => none
      | some (copymap2, copymask2, src_i2) =>
        if copymap2 &&& (copymask2 % 256) ≠ 0 then
          match src.get? src_i2, src.get? (src_i2 + 1) with
          | some s0, some s1 =>
            let mlen := (s0 >>> (NBBY - MATCH_BITS)) + MATCH_MIN
            let offset := ((s0 <<< NBBY) ||| s1) &&& OFFSET_MASK
            if dst_i < offset then some (dst, DecStatus.corrupt)
            else
              let r := copyN dst dst_i (dst_i - offset) mlen
              decodeLoop src r.1 (src_i2 + 2) r.2 copymap2 copymask2 fuel
          | _, _ => none
        else
          match src.get? src_i2 with
          | some b => decodeLoop src (dst.set dst_i b) (src_i2 + 1) (dst_i + 1) copymap2 copymask2 fuel
          | none => none
    else some (dst, DecStatus.ok)

/-- Model of `LzjbDecoder::read` (src/lzjb.rs lines 156-198): LZJB-decode
`src` into `dst`.  The fuel `dst.length + 1` always suffices because every
loop iteration writes at least one destination byte. -/
def LzjbDecoder.read (src dst : List Nat) : Option (List Nat × DecStatus) :=
  decodeLoop src dst 0 0 0 (1 <<< (NBBY - 1)) (dst.length + 1)

/-- Model of `Reader::read` (src/zio.rs lines 22-29): read `length` sectors
starting at sector `start` from the disk, modelled as a total byte function
(a fresh zero-filled buffer is always returned in the source, with the
underlying I/O result discarded). -/
def Reader.read (disk : Nat → Nat) (start length : Nat) : List Nat :=
  (List.range (length * 512)).map (fun j => disk (start * 512 + j))

/-- Modelled from the spec: `block_ptr.rs` is not under `src/`.  Only the
on-disk size of a block pointer matters for the uberblock length check; the
standard on-disk block pointer is 128 bytes, and any value at most 984 gives
the same behaviour because `Reader::uber` always reads 1024 bytes per slot. -/
def blockPtrSize : Nat := 128

/-- Size in bytes of the packed `Uberblock` record (src/uberblock.rs lines
9-18): five `u64` fields followed by the embedded block pointer. -/
def uberblockSize : Nat := 5 * 8 + blockPtrSize

/-- The uberblock magic constant (src/uberblock.rs line 6). -/
def UBERBLOCK_MAGIC : Nat := 0x00bab10c

/-- Model of `Uberblock::magic_big` (src/uberblock.rs lines 25-27). -/
def Uberblock.magic_big : Nat := UBERBLOCK_MAGIC

/-- Model of `Uberblock::magic_little` (src/uberblock.rs lines 21-23):
`UBERBLOCK_MAGIC.swap_bytes()` as a `u64`. -/
def Uberblock.magic_little : Nat := 0x0cb1ba0000000000

/-- The packed on-disk uberblock record (src/uberblock.rs lines 9-18). -/
structure Uberblock where
  magic : Nat
  version : Nat
  txg : Nat
  guid_sum : Nat
  timestamp : Nat
  rootbp : List Nat
deriving DecidableEq

/-- Little-endian `u64` read at byte offset `off`, modelling `ptr::read` of a
packed `u64` field on the little-endian targets this repository builds for. -/
def readLE64 (data : List Nat) (off : Nat) : Nat :=
  data.getD off 0 + data.getD (off + 1) 0 * 256 + data.getD (off + 2) 0 * 256 ^ 2 +
    data.getD (off + 3) 0 * 256 ^ 3 + data.getD (off + 4) 0 * 256 ^ 4 +
    data.getD (off + 5) 0 * 256 ^ 5 + data.getD (off + 6) 0 * 256 ^ 6 +
    data.getD (off + 7) 0 * 256 ^ 7

/-- Error message of src/uberblock.rs line 42. -/
def msgShortUberblock : String := "Not enough bytes to read Uberblock."

/-- Error message of src/uberblock.rs line 39. -/
def msgBadMagic : String := "Error: Invalid uberblock magic number"

/-- Model of `Uberblock::from_bytes` (src/uberblock.rs lines 30-45): check the
buffer is long enough, reinterpret the leading bytes as the packed record, and
accept only if the magic matches in one of the two byte orders. -/
def Uberblock.from_bytes (data : List Nat) : Except String Uberblock :=
  if uberblockSize ≤ data.length then
    let uberblock : Uberblock :=
      ⟨readLE64 data 0, readLE64 data 8, readLE64 data 16, readLE64 data 24,
        readLE64 data 32, (data.drop 40).take blockPtrSize⟩
    if uberblock.magic = Uberblock.magic_little then Except.ok uberblock
    else if uberblock.magic = Uberblock.magic_big then Except.ok uberblock
    else Except.error msgBadMagic
  else Except.error msgShortUberblock

/-- Parse of candidate slot `i` inside `Reader::uber` (src/zio.rs line 73):
`Uberblock::from_bytes(&self.read(256 + i * 2, 2))`. -/
def slotRead (disk : Nat → Nat) (i : Nat) : Except String Uberblock :=
  Uberblock.from_bytes (Reader.read disk (256 + i * 2) 2)

/-- One step of the newest-uberblock fold (src/zio.rs lines 73-90): a slot
that fails to parse leaves the accumulator unchanged; a valid slot replaces
the accumulator only when its `txg` is strictly greater. -/
def ubStep (newest : Option Uberblock) (r : Except String Uberblock) : Option Uberblock :=
  match r with
  | Except.ok uberblock =>
    match newest with
    | some previous => if previous.txg < uberblock.txg then some uberblock else some previous
    | none => some uberblock
  | Except.error _ => newest

/-- The scan of `Reader::uber` over the first `n` slots, in ascending order. -/
def uberAux (p : Nat → Except String Uberblock) (n : Nat) : Option Uberblock :=
  (List.range n).foldl (fun newest i => ubStep newest (p i)) none

/-- Error message of src/zio.rs line 95. -/
def msgNoUberblock : String := "Failed to find valid uberblock"

/-- Model of `Reader::uber` (src/zio.rs lines 70-97): scan all 128 candidate
slots in ascending order and return the newest valid uberblock, or an error
when no slot validates. -/
def Reader.uber (disk : Nat → Nat) : Except String Uberblock :=
  match uberAux (slotRead disk) 128 with
  | some uberblock => Except.ok uberblock
  | none => Except.error msgNoUberblock

/-- Modelled from the spec: `block_ptr.rs` is not under `src/`.  A block
pointer holds up to three redundant device addresses (only the first is
consulted), a compression-mode code and a logical size in sectors. -/
structure BlockPtr where
  dvas : Fin 3 → DVAddr
  compression : Nat
  lsize : Nat

/-- Model of `Reader::read_dva` (src/zio.rs lines 36-38). -/
def Reader.read_dva (disk : Nat → Nat) (dva : DVAddr) : List Nat :=
  Reader.read disk dva.sector dva.asize

/-- Error message of src/zio.rs line 53 (the unsupported-compression branch). -/
def msgUnsupportedCompression : String := "Error: not enough bytes"

/-- Model of `Reader::read_block` (src/zio.rs lines 40-55): read the raw
sectors of the first device address, then branch on the compression code:
2 returns the raw bytes, 1 and 3 LZJB-decode into a `lsize * 512`-byte buffer
(the decode result itself is discarded by the source), anything else is the
unsupported-compression error.  `none` models a decoder panic. -/
def Reader.read_block (disk : Nat → Nat) (bp : BlockPtr) : Option (Except String (List Nat)) :=
  let data := Reader.read_dva disk (bp.dvas 0)
  if bp.compression = 2 then some (Except.ok data)
  else if bp.compression = 1 ∨ bp.compression = 3 then
    match LzjbDecoder.read data (List.replicate (bp.lsize * 512) 0) with
    | some r => some (Except.ok r.1)
    | none => none
  else some (Except.error msgUnsupportedCompression)

/-- The MRU (recency) cache tier (src/arcache.rs lines 9-17).  The queue holds
the newest address at the front and the oldest at the back. -/
structure Mru where
  map : List (DVAddr × List Nat)
  queue : List DVAddr
  size : Nat
  used : Nat
deriving DecidableEq

/-- Model of `Mru::new` (src/arcache.rs lines 20-27). -/
def Mru.new : Mru := ⟨[], [], 1000, 0⟩

/-- Result of the eviction loop: final map, remaining queue (oldest first),
used counter, and whether room was found (`false` models the early error
return after the queue is exhausted). -/
structure EvictOut where
  map : List (DVAddr × List Nat)
  rq : List DVAddr
  used : Nat
  evOk : Bool
deriving DecidableEq

/-- Model of the eviction loop of src/arcache.rs lines 31-38, acting on the
queue reversed (oldest first, so `pop_back` is head removal): while the new
block does not fit, pop the oldest address, drop its map entry and release
its allocated-size units. -/
def evictRec : List (DVAddr × List Nat) → List DVAddr → Nat → Nat → Nat → EvictOut
  | map, [], used, size, asize =>
    if size < used + asize then ⟨map, [], used, false⟩ else ⟨map, [], used, true⟩
  | map, last :: rest, used, size, asize =>
    if size < used + asize then
      evictRec (merase map last) rest (used - last.asize) size asize
    else ⟨map, last :: rest, used, true⟩

/-- Error message of src/arcache.rs line 34. -/
def msgMruExhausted : String := "No more ARC MRU items to free"

/-- Message for the unreachable branch modelling the `unwrap` of
src/arcache.rs line 44 (the key was just inserted, so lookup cannot fail). -/
def msgMruUnreachable : String := "unreachable: key was just inserted"

/-- Model of `Mru::cache_block` (src/arcache.rs lines 29-45): make room by
evicting from the least-recently-inserted end, then account the new block,
insert it into the map and push its address to the front of the queue.
Returns the result together with the mutated tier state (the source mutates
`self` in place even on the error path). -/
def Mru.cache_block (mru : Mru) (dva : DVAddr) (block : List Nat) :
    Except String (List Nat) × Mru :=
  let r := evictRec mru.map mru.queue.reverse mru.used mru.size dva.asize
  if r.evOk then
    let map2 := minsert r.map dva block
    let mru2 : Mru := ⟨map2, dva :: r.rq.reverse, mru.size, r.used + dva.asize⟩
    match mlookup map2 dva with
    | some b => (Except.ok b, mru2)
    | none => (Except.error msgMruUnreachable, mru2)
  else (Except.error msgMruExhausted, ⟨r.map, r.rq.reverse, mru.size, r.used⟩)

/-- The MFU (frequency) cache tier (src/arcache.rs lines 49-57): each entry
carries a usage counter. -/
structure Mfu where
  map : List (DVAddr × (Nat × List Nat))
  size : Nat
  used : Nat
deriving DecidableEq

/-- Model of `Mfu::new` (src/arcache.rs lines 60-66). -/
def Mfu.new : Mfu := ⟨[], 1000, 0⟩

/-- The two-tier adaptive replacement cache (src/arcache.rs lines 94-97). -/
structure ArCache where
  mru : Mru
  mfu : Mfu
deriving DecidableEq

/-- Model of `ArCache::new` (src/arcache.rs lines 100-105). -/
def ArCache.new : ArCache := ⟨Mru.new, Mfu.new⟩

/-- Model of `ArCache::read` (src/arcache.rs lines 107-130).  The third
component records whether physical storage was accessed (the
`reader.read(...)` call on the full-miss path). -/
def ArCache.read (st : ArCache) (disk : Nat → Nat) (dva : DVAddr) :
    Except String (List Nat) × ArCache × Bool :=
  match mlookup st.mru.map dva with
  | some block =>
    (Except.ok block,
      ⟨⟨merase st.mru.map dva, st.mru.queue, st.mru.size, st.mru.used⟩,
        ⟨minsert st.mfu.map dva (0, block), st.mfu.size, st.mfu.used⟩⟩,
      false)
  | none =>
    match mlookup st.mfu.map dva with
    | some cb =>
      let cnt := if 1000 < cb.1 then 0 else cb.1 + 1
      (Except.ok cb.2,
        ⟨st.mru, ⟨minsert st.mfu.map dva (cnt, cb.2), st.mfu.size, st.mfu.used⟩⟩,
        false)
    | none =>
      let block := Reader.read disk dva.sector dva.asize
      let r := Mru.cache_block st.mru dva block
      (r.1, ⟨r.2, st.mfu⟩, true)

/-- A sequence of cache reads, threading the cache state (results are
discarded; the source mutates the cache in place on every call). -/
def readSeq (disk : Nat → Nat) : ArCache → List DVAddr → ArCache
  | st, [] => st
  | st, d :: ds => readSeq disk (st.read disk d).2.1 ds

/-- Tier exclusivity: an address has an entry in at most one of the two maps. -/
def TierExclusive (st : ArCache) : Prop :=
  ∀ a, mlookup st.mru.map a = none ∨ mlookup st.mfu.map a = none

/-- Sum of the allocated sizes of a list of addresses. -/
def queueSum (q : List DVAddr) : Nat := (q.map DVAddr.asize).sum

/-- Accounting consistency of the recency tier: the used counter equals the
sum of allocated sizes over the queue. -/
def mruConsistent (mru : Mru) : Prop := mru.used = queueSum mru.queue

/-- A sequence of recency-tier admissions; `none` once any admission fails. -/
def admitList : Mru → List (DVAddr × List Nat) → Option Mru
  | mru, [] => some mru
  | mru, (d, b) :: rest =>
    match Mru.cache_block mru d b with
    | (Except.ok _, mru2) => admitList mru2 rest
    | (Except.error _, _) => none

set_option maxRecDepth 8000 in
/-- C1: the claim asserts `decode(encode(s)) == s` for every byte sequence of
length 0 up to several times the 1024-entry table size.  The encoder instead
panics for every input length from 1 to 65: with fewer than `MATCH_MAX = 66`
bytes of input, the guard `src_i > self.src.len() - MATCH_MAX` underflows
(wraps) and the hash computation reads `src[src_i + 1]` and `src[src_i + 2]`
out of bounds.  This theorem evaluates the encoder at the one-byte input `[0]`
with an ample 100-byte destination and at the 65-byte input `0..64` with a
300-byte destination: both panic (`none`), so the round-trip property fails
inside the claimed length range. -/
theorem lzjb_roundtrip_fails_on_short_input :
    LzjbEncoder.read [0] (List.replicate 100 0) = none ∧
    LzjbEncoder.read (List.range 65) (List.replicate 300 0) = none := by
  exact ⟨by decide, by decide⟩

/-- C6: whenever the decoder encounters a match item whose computed
back-reference offset exceeds the number of output bytes already produced
(`dst_i < offset`), it returns the corruption error with the buffer
untouched instead of reading out of bounds.  The state is an arbitrary
reachable loop state: `decStep` is the control-byte cycle bookkeeping, the
flag bit of the copy map marks the current item as a match, and the two match
bytes are read from the compressed input. -/
theorem decoder_rejects_bad_offset (src dst : List Nat)
    (src_i dst_i copymap copymask fuel cm2 m2 si2 s0 s1 : Nat)
    (hd : dst_i < dst.length)
    (hstep : decStep src src_i copymap (copymask <<< 1) = some (cm2, m2, si2))
    (hflag : cm2 &&& (m2 % 256) ≠ 0)
    (h0 : src.get? si2 = some s0)
    (h1 : src.get? (si2 + 1) = some s1)
    (hoff : dst_i < ((s0 <<< NBBY) ||| s1) &&& OFFSET_MASK) :
    decodeLoop src dst src_i dst_i copymap copymask (fuel + 1) =
      some (dst, DecStatus.corrupt) := by
  rw [decodeLoop, if_pos hd, hstep]
  simp only [h0, h1, if_pos hflag, if_pos hoff]

/-- Witness for C6: the very first item of the compressed input `[1, 0, 200]`
is a match with offset 200 while no output has been produced yet; decoding
into a 4-byte buffer fails with the corruption error. -/
theorem decoder_rejects_bad_offset_witness :
    (0 : Nat) < (List.replicate 4 0 : List Nat).length ∧
    decodeLoop [1, 0, 200] (List.replicate 4 0) 0 0 0 128 5 =
      some (List.replicate 4 0, DecStatus.corrupt) :=
  ⟨by decide,
    decoder_rejects_bad_offset [1, 0, 200] (List.replicate 4 0) 0 0 0 128 4 1 1 1 0 200
      (by decide) (by decide) (by decide) (by decide) (by decide) (by decide)⟩

/-- C8 counterexample: encoding the 100-byte input `0..99` into a 20-byte
destination stops early after consuming only 8 input bytes (one control-byte
cycle), yet returns 100 — the full source length — not the count of bytes
consumed.  The second conjunct shows the returned value cannot be the consumed
count: changing input byte 50, which the encoder never touched before
stopping, leaves the output and the returned value unchanged. -/
theorem encoder_partial_return_counterexample :
    LzjbEncoder.read (List.range 100) (List.replicate 20 0) =
      some ([0, 0, 1, 2, 3, 4, 5, 6, 7, 0, 0, 0, 0, 0, 0, 0, 0, 0, 0, 0], 100) ∧
    LzjbEncoder.read ((List.range 100).set 50 0) (List.replicate 20 0) =
      some ([0, 0, 1, 2, 3, 4, 5, 6, 7, 0, 0, 0, 0, 0, 0, 0, 0, 0, 0, 0], 100) ∧
    (List.range 100).set 50 0 ≠ List.range 100 :=
  ⟨by decide, by decide, by decide⟩

/-- C8 (amended): when the encoder reaches a point where fewer than two
control-byte cycles of room remain in the destination buffer, it stops
emitting and returns the full length of the source (the incompressible-input
signal), as a successful partial-encode result rather than an error. -/
theorem encoder_partial_returns_src_len (src dst : List Nat) (lempel : Nat → Nat)
    (src_i dst_i copymap copymask fuel : Nat)
    (hs : src_i < src.length)
    (hcm : copymask <<< 1 = 1 <<< NBBY)
    (hroom : usub (usub dst.length 1) (2 * NBBY) ≤ dst_i) :
    encLoop src dst lempel src_i dst_i copymap copymask (fuel + 1) =
      some (dst, src.length) := by
  rw [encLoop, if_pos hs, cycleStep, if_pos hcm, if_pos hroom]

/-- Witness for C8 (amended): a concrete loop state at a control-byte cycle
boundary with insufficient room left in the 18-byte destination. -/
theorem encoder_partial_returns_src_len_witness :
    (0 : Nat) < ([3] : List Nat).length ∧ (128 : Nat) <<< 1 = 1 <<< NBBY ∧
    usub (usub (List.replicate 18 0 : List Nat).length 1) (2 * NBBY) ≤ 5 ∧
    encLoop [3] (List.replicate 18 0) (fun _ => 0) 0 5 0 128 2 =
      some (List.replicate 18 0, 1) :=
  ⟨by decide, by decide, by decide,
    encoder_partial_returns_src_len [3] (List.replicate 18 0) (fun _ => 0) 0 5 0 128 1
      (by decide) (by decide) (by decide)⟩

/-- A slot that fails to parse leaves the running newest candidate unchanged. -/
theorem ubStep_error (x : Option Uberblock) (e : String) :
    ubStep x (Except.error e) = x := rfl

/-- The first valid slot becomes the candidate. -/
theorem ubStep_ok_none (u : Uberblock) : ubStep none (Except.ok u) = some u := rfl

/-- A later valid slot replaces the candidate only on strictly greater txg. -/
theorem ubStep_ok_some (prev u : Uberblock) :
    ubStep (some prev) (Except.ok u) = if prev.txg < u.txg then some u else some prev := rfl

/-- Unrolling the scan by one slot. -/
theorem uberAux_succ (p : Nat → Except String Uberblock) (n : Nat) :
    uberAux p (n + 1) = ubStep (uberAux p n) (p n) := by
  unfold uberAux
  rw [List.range_succ, List.foldl_append]
  rfl

/-- The scan yields no candidate exactly when every slot fails to parse. -/
theorem uberAux_none_iff (p : Nat → Except String Uberblock) (n : Nat) :
    uberAux p n = none ↔ ∀ i, i < n → ∃ e, p i = Except.error e := by
  induction n with
  | zero => simp [uberAux]
  | succ n ih =>
    rw [uberAux_succ]
    constructor
    · intro h
      cases hr : p n with
      | ok u =>
        rw [hr] at h
        cases hx : uberAux p n with
        | none => rw [hx, ubStep_ok_none] at h; cases h
        | some prev =>
          rw [hx, ubStep_ok_some] at h
          by_cases hc : prev.txg < u.txg
          · rw [if_pos hc] at h; cases h
          · rw [if_neg hc] at h; cases h
      | error e =>
        rw [hr, ubStep_error] at h
        intro i hi
        rcases Nat.lt_succ_iff_lt_or_eq.mp hi with h1 | h1
        · exact ih.mp h i h1
        · exact h1 ▸ ⟨e, hr⟩
    · intro h
      obtain ⟨e, he⟩ := h n (Nat.lt_succ_self n)
      rw [he, ubStep_error]
      exact ih.mpr (fun i hi => h i (Nat.lt_succ_of_lt hi))

/-- When the scan of the first `n` slots yields a candidate, that candidate is
the parse of some slot `i < n`, every valid slot before `i` has a strictly
smaller txg (so `i` is the first slot attaining the maximum), and no valid
slot among the `n` has a greater txg. -/
theorem uberAux_some_spec (p : Nat → Except String Uberblock) (n : Nat) :
    ∀ u, uberAux p n = some u →
      ∃ i, i < n ∧ p i = Except.ok u ∧
        (∀ j, j < i → ∀ v, p j = Except.ok v → v.txg < u.txg) ∧
        (∀ j, j < n → ∀ v, p j = Except.ok v → v.txg ≤ u.txg) := by
  induction n with
  | zero => intro u h; simp [uberAux] at h
  | succ n ih =>
    intro u h
    rw [uberAux_succ] at h
    cases hr : p n with
    | error e =>
      rw [hr, ubStep_error] at h
      obtain ⟨i, hi, hpi, hstrict, hle⟩ := ih u h
      refine ⟨i, Nat.lt_succ_of_lt hi, hpi, hstrict, ?_⟩
      intro j hj v hv
      rcases Nat.lt_succ_iff_lt_or_eq.mp hj with h1 | h1
      · exact hle j h1 v hv
      · rw [h1, hr] at hv; cases hv
    | ok w =>
      rw [hr] at h
      cases hx : uberAux p n with
      | none =>
        rw [hx, ubStep_ok_none] at h
        injection h with h
        subst h
        refine ⟨n, Nat.lt_succ_self n, hr, ?_, ?_⟩
        · intro j hj v hv
          obtain ⟨e, he⟩ := (uberAux_none_iff p n).mp hx j hj
          rw [he] at hv; cases hv
        · intro j hj v hv
          rcases Nat.lt_succ_iff_lt_or_eq.mp hj with h1 | h1
          · obtain ⟨e, he⟩ := (uberAux_none_iff p n).mp hx j h1
            rw [he] at hv; cases hv
          · rw [h1, hr] at hv
            injection hv with hv
            exact hv ▸ Nat.le_refl _
      | some prev =>
        rw [hx, ubStep_ok_some] at h
        obtain ⟨i, hi, hpi, hstrict, hle⟩ := ih prev hx
        by_cases hc : prev.txg < w.txg
        · rw [if_pos hc] at h
          injection h with h
          subst h
          refine ⟨n, Nat.lt_succ_self n, hr, ?_, ?_⟩
          · intro j hj v hv
            exact Nat.lt_of_le_of_lt (hle j hj v hv) hc
          · intro j hj v hv
            rcases Nat.lt_succ_iff_lt_or_eq.mp hj with h1 | h1
            · exact Nat.le_of_lt (Nat.lt_of_le_of_lt (hle j h1 v hv) hc)
            · rw [h1, hr] at hv
              injection hv with hv
              exact hv ▸ Nat.le_refl _
        · rw [if_neg hc] at h
          injection h with h
          subst h
          refine ⟨i, Nat.lt_succ_of_lt hi, hpi, hstrict, ?_⟩
          intro j hj v hv
          rcases Nat.lt_succ_iff_lt_or_eq.mp hj with h1 | h1
          · exact hle j h1 v hv
          · rw [h1, hr] at hv
            injection hv with hv
            exact hv ▸ Nat.le_of_not_lt hc

/-- C2: the uberblock locator scans all 128 candidate slots in ascending slot
order; a slot whose bytes fail to parse (short buffer or magic that matches in
neither byte order) is skipped and scanning continues; the result is the valid
candidate with the strictly greatest txg, with ties kept by the first (lowest
slot index) occurrence; the no-valid-uberblock error is returned if and only
if no slot validates. -/
theorem uber_selects_latest_valid (disk : Nat → Nat) :
    (Reader.uber disk = Except.error msgNoUberblock ↔
      ∀ i, i < 128 → ∃ e, slotRead disk i = Except.error e) ∧
    (∀ u, Reader.uber disk = Except.ok u →
      ∃ i, i < 128 ∧ slotRead disk i = Except.ok u ∧
        (∀ j, j < i → ∀ v, slotRead disk j = Except.ok v → v.txg < u.txg) ∧
        (∀ j, j < 128 → ∀ v, slotRead disk j = Except.ok v → v.txg ≤ u.txg)) := by
  constructor
  · constructor
    · intro h
      unfold Reader.uber at h
      cases hx : uberAux (slotRead disk) 128 with
      | some u => rw [hx] at h; cases h
      | none => exact (uberAux_none_iff _ _).mp hx
    · intro h
      unfold Reader.uber
      rw [(uberAux_none_iff _ _).mpr h]
  · intro u h
    unfold Reader.uber at h
    cases hx : uberAux (slotRead disk) 128 with
    | none => rw [hx] at h; cases h
    | some w =>
      rw [hx] at h
      injection h with h
      exact h ▸ uberAux_some_spec _ _ _ hx

/-- Reading any sectors of an all-zero disk yields a zero-filled buffer. -/
theorem reader_read_zero (start len : Nat) :
    Reader.read (fun _ => 0) start len = List.replicate (len * 512) 0 := by
  unfold Reader.read
  rw [show (fun j => (fun _ => (0 : Nat)) (start * 512 + j)) = fun _ => (0 : Nat) from rfl]
  rw [List.map_const', List.length_range]

/-- Indexing a zero-filled buffer yields zero. -/
theorem getD_replicate_zero (n i : Nat) : (List.replicate n (0 : Nat)).getD i 0 = 0 := by
  induction n generalizing i with
  | zero => simp [List.getD]
  | succ n ih => cases i <;> simp [List.replicate, ih]

/-- A zero-filled little-endian field reads as zero. -/
theorem readLE64_replicate_zero (n off : Nat) : readLE64 (List.replicate n 0) off = 0 := by
  simp [readLE64, getD_replicate_zero]

/-- Every candidate slot of an all-zero disk fails the magic check. -/
theorem slotRead_zero (i : Nat) : slotRead (fun _ => 0) i = Except.error msgBadMagic := by
  unfold slotRead
  rw [reader_read_zero]
  unfold Uberblock.from_bytes
  rw [if_pos (by rw [List.length_replicate]; decide)]
  rw [readLE64_replicate_zero]
  rw [if_neg (by decide), if_neg (by decide)]

/-- Witness for C2: on an all-zero disk every slot fails the magic check, and
the locator returns the no-valid-uberblock error. -/
theorem uber_selects_latest_valid_witness :
    (∀ i, i < 128 → ∃ e, slotRead (fun _ => 0) i = Except.error e) ∧
    Reader.uber (fun _ => 0) = Except.error msgNoUberblock :=
  have hall : ∀ i, i < 128 → ∃ e, slotRead (fun _ => 0) i = Except.error e :=
    fun i _ => ⟨msgBadMagic, slotRead_zero i⟩
  ⟨hall, (uber_selects_latest_valid (fun _ => 0)).1.mpr hall⟩

/-- Looking up a just-inserted key yields the inserted value. -/
theorem mlookup_minsert_self {β : Type} (m : List (DVAddr × β)) (a : DVAddr) (v : β) :
    mlookup (minsert m a v) a = some v := by
  simp [minsert, mlookup]

/-- Removal erases the key. -/
theorem mlookup_merase_self {β : Type} (m : List (DVAddr × β)) (a : DVAddr) :
    mlookup (merase m a) a = none := by
  induction m with
  | nil => rfl
  | cons kv rest ih =>
    obtain ⟨k, v⟩ := kv
    by_cases h : k = a
    · simpa [merase, h] using ih
    · simpa [merase, mlookup, h] using ih

/-- Removal leaves other keys untouched. -/
theorem mlookup_merase_ne {β : Type} (m : List (DVAddr × β)) (a b : DVAddr) (h : a ≠ b) :
    mlookup (merase m a) b = mlookup m b := by
  induction m with
  | nil => rfl
  | cons kv rest ih =>
    obtain ⟨k, v⟩ := kv
    by_cases hk : k = a
    · subst hk
      simp [merase, mlookup, h, ih]
    · simp only [merase, if_neg hk, mlookup]
      by_cases hb : k = b
      · rw [if_pos hb, if_pos hb]
      · rw [if_neg hb, if_neg hb, ih]

/-- Insertion leaves other keys untouched. -/
theorem mlookup_minsert_ne {β : Type} (m : List (DVAddr × β)) (a b : DVAddr) (v : β)
    (h : a ≠ b) : mlookup (minsert m a v) b = mlookup m b := by
  simp [minsert, mlookup, h, mlookup_merase_ne m a b h]

/-- A binding that survives a removal was already present. -/
theorem mlookup_merase_mono {β : Type} (m : List (DVAddr × β)) (a b : DVAddr) (v : β)
    (h : mlookup (merase m a) b = some v) : mlookup m b = some v := by
  by_cases hb : a = b
  · rw [hb, mlookup_merase_self] at h; cases h
  · rwa [mlookup_merase_ne m a b hb] at h

/-- The eviction loop only removes map entries. -/
theorem evictRec_map_mono (rq : List DVAddr) :
    ∀ map used size asize a v,
      mlookup (evictRec map rq used size asize).map a = some v → mlookup map a = some v := by
  induction rq with
  | nil =>
    intro map used size asize a v h
    unfold evictRec at h
    split at h <;> exact h
  | cons last rest ih =>
    intro map used size asize a v h
    unfold evictRec at h
    split at h
    · exact mlookup_merase_mono map last a v (ih _ _ _ _ a v h)
    · exact h

/-- The eviction loop removes a prefix of the reversed queue (i.e. a suffix of
the queue: the least-recently-inserted entries). -/
theorem evictRec_rq_drop (rq : List DVAddr) :
    ∀ map used size asize, ∃ m, (evictRec map rq used size asize).rq = rq.drop m := by
  induction rq with
  | nil =>
    intro map used size asize
    refine ⟨0, ?_⟩
    unfold evictRec
    split <;> rfl
  | cons last rest ih =>
    intro map used size asize
    by_cases hc : size < used + asize
    · obtain ⟨m, hm⟩ := ih (merase map last) (used - last.asize) size asize
      refine ⟨m + 1, ?_⟩
      unfold evictRec
      rw [if_pos hc, hm]
      rfl
    · refine ⟨0, ?_⟩
      unfold evictRec
      rw [if_neg hc]
      rfl

/-- On success the eviction loop has made enough room: the remaining used
units plus the incoming size fit within the capacity. -/
theorem evictRec_le (rq : List DVAddr) :
    ∀ map used size asize, (evictRec map rq used size asize).evOk = true →
      (evictRec map rq used size asize).used + asize ≤ size := by
  induction rq with
  | nil =>
    intro map used size asize h
    unfold evictRec at h ⊢
    by_cases hc : size < used + asize
    · rw [if_pos hc] at h; cases h
    · rw [if_neg hc] at h ⊢; exact Nat.le_of_not_lt hc
  | cons last rest ih =>
    intro map used size asize h
    unfold evictRec at h ⊢
    by_cases hc : size < used + asize
    · rw [if_pos hc] at h ⊢; exact ih _ _ _ _ h
    · rw [if_neg hc] at h ⊢; exact Nat.le_of_not_lt hc

/-- When the eviction loop gives up, the queue has been fully drained. -/
theorem evictRec_fail_empty (rq : List DVAddr) :
    ∀ map used size asize, (evictRec map rq used size asize).evOk = false →
      (evictRec map rq used size asize).rq = [] := by
  induction rq with
  | nil =>
    intro map used size asize _
    unfold evictRec
    split <;> rfl
  | cons last rest ih =>
    intro map used size asize h
    unfold evictRec at h ⊢
    by_cases hc : size < used + asize
    · rw [if_pos hc] at h ⊢; exact ih _ _ _ _ h
    · rw [if_neg hc] at h; cases h

/-- Under accounting consistency (`used` equals the summed allocated sizes of
the queue), the eviction loop preserves consistency, and it succeeds exactly
when the incoming block alone fits within the capacity. -/
theorem evictRec_consistent (rq : List DVAddr) :
    ∀ map used size asize, used = queueSum rq →
      (evictRec map rq used size asize).used = queueSum (evictRec map rq used size asize).rq ∧
      ((evictRec map rq used size asize).evOk = true ↔ asize ≤ size) := by
  induction rq with
  | nil =>
    intro map used size asize h
    have h0 : used = 0 := by simpa [queueSum] using h
    unfold evictRec
    by_cases hc : size < used + asize
    · rw [if_pos hc]
      refine ⟨h, ?_, ?_⟩
      · intro hh; cases hh
      · intro hle; exfalso; omega
    · rw [if_neg hc]
      refine ⟨h, fun _ => by omega, fun _ => rfl⟩
  | cons last rest ih =>
    intro map used size asize h
    have hsum : used = last.asize + queueSum rest := by
      simpa [queueSum] using h
    unfold evictRec
    by_cases hc : size < used + asize
    · rw [if_pos hc]
      exact ih (merase map last) (used - last.asize) size asize (by omega)
    · rw [if_neg hc]
      refine ⟨h, fun _ => by omega, fun _ => rfl⟩

/-- When the eviction loop finds room, `cache_block` inserts the block,
pushes the address to the queue front and accounts its size. -/
theorem cache_block_of_evOk (mru : Mru) (dva : DVAddr) (block : List Nat)
    (h : (evictRec mru.map mru.queue.reverse mru.used mru.size dva.asize).evOk = true) :
    Mru.cache_block mru dva block =
      (Except.ok block,
        ⟨minsert (evictRec mru.map mru.queue.reverse mru.used mru.size dva.asize).map dva block,
          dva :: (evictRec mru.map mru.queue.reverse mru.used mru.size dva.asize).rq.reverse,
          mru.size,
          (evictRec mru.map mru.queue.reverse mru.used mru.size dva.asize).used + dva.asize⟩) := by
  unfold Mru.cache_block
  rw [if_pos h]
  simp [mlookup_minsert_self]

/-- A successful admission ends with the used units within capacity, the
capacity unchanged, and the new queue consisting of the admitted address in
front of a prefix of the old queue (eviction took only the
least-recently-inserted entries). -/
theorem cache_block_ok_spec (mru : Mru) (dva : DVAddr) (block v : List Nat) (mru2 : Mru)
    (h : Mru.cache_block mru dva block = (Except.ok v, mru2)) :
    mru2.used ≤ mru2.size ∧ mru2.size = mru.size ∧
      ∃ k, mru2.queue = dva :: mru.queue.take k := by
  by_cases hok : (evictRec mru.map mru.queue.reverse mru.used mru.size dva.asize).evOk = true
  · rw [cache_block_of_evOk mru dva block hok] at h
    injection h with h1 h2
    subst h2
    refine ⟨?_, rfl, ?_⟩
    · exact evictRec_le _ _ _ _ _ hok
    · obtain ⟨m, hm⟩ := evictRec_rq_drop mru.queue.reverse mru.map mru.used mru.size dva.asize
      refine ⟨mru.queue.length - m, ?_⟩
      show dva :: _ = _
      rw [hm, List.drop_reverse, List.reverse_reverse]
  · exfalso
    unfold Mru.cache_block at h
    rw [if_neg hok] at h
    injection h with h1 _
    cases h1

/-- Per-step capacity bound along a sequence of successful admissions. -/
theorem admitList_bound (ops : List (DVAddr × List Nat)) :
    ∀ mru mru2, mru.used ≤ mru.size → admitList mru ops = some mru2 →
      mru2.used ≤ mru2.size := by
  induction ops with
  | nil =>
    intro mru mru2 hle h
    injection h with h
    exact h ▸ hle
  | cons op rest ih =>
    intro mru mru2 hle h
    obtain ⟨d, b⟩ := op
    unfold admitList at h
    cases hcb : Mru.cache_block mru d b with
    | mk r mruNext =>
      rw [hcb] at h
      cases r with
      | ok v =>
        exact ih mruNext mru2 (cache_block_ok_spec mru d b v mruNext hcb).1 h
      | error e => cases h

/-- C3: after every sequence of successful recency-tier admissions starting
from the fresh tier, the used allocated-size units never exceed the configured
capacity (capacity is enforced before each insertion); and any single
successful admission evicts only from the least-recently-inserted end, leaving
the new address in front of a prefix of the old queue. -/
theorem mru_capacity_invariant :
    (∀ ops mru2, admitList Mru.new ops = some mru2 → mru2.used ≤ mru2.size) ∧
    (∀ mru dva block v mru2, Mru.cache_block mru dva block = (Except.ok v, mru2) →
      ∃ k, mru2.queue = dva :: mru.queue.take k) :=
  ⟨fun ops mru2 h => admitList_bound ops Mru.new mru2 (by decide) h,
    fun mru dva block v mru2 h => (cache_block_ok_spec mru dva block v mru2 h).2.2⟩

/-- Witness for C3: admitting blocks A, B of one unit each into a
two-unit-capacity tier, then C, evicts exactly A (the oldest): the final queue
is `[C, B]`, the final used count 2 is within capacity, and A is gone from the
map. -/
theorem mru_capacity_invariant_witness :
    admitList ⟨[], [], 2, 0⟩
        [(⟨0, 1⟩, [10]), (⟨1, 1⟩, [11]), (⟨2, 1⟩, [12])] =
      some ⟨[(⟨2, 1⟩, [12]), (⟨1, 1⟩, [11])], [⟨2, 1⟩, ⟨1, 1⟩], 2, 2⟩ ∧
    (2 : Nat) ≤ 2 ∧
    (∃ k, ([⟨2, 1⟩, ⟨1, 1⟩] : List DVAddr) =
      ⟨2, 1⟩ :: ([⟨1, 1⟩, ⟨0, 1⟩] : List DVAddr).take k) :=
  ⟨by decide, by decide,
    mru_capacity_invariant.2 ⟨[(⟨1, 1⟩, [11]), (⟨0, 1⟩, [10])], [⟨1, 1⟩, ⟨0, 1⟩], 2, 2⟩
      ⟨2, 1⟩ [12] [12] ⟨[(⟨2, 1⟩, [12]), (⟨1, 1⟩, [11])], [⟨2, 1⟩, ⟨1, 1⟩], 2, 2⟩ (by decide)⟩

/-- C9: under accounting consistency, a recency-tier admission fails with the
out-of-evictable-items error exactly when even a fully drained tier cannot fit
the incoming block, i.e. the block alone exceeds the configured capacity; and
on that failure the queue has indeed been fully drained.  As long as any
evictable entry remains and can make room, eviction continues and the
admission succeeds. -/
theorem cache_block_exhaustion (mru : Mru) (dva : DVAddr) (block : List Nat)
    (h : mruConsistent mru) :
    ((Mru.cache_block mru dva block).1 = Except.error msgMruExhausted ↔
      mru.size < dva.asize) ∧
    ((Mru.cache_block mru dva block).1 = Except.error msgMruExhausted →
      (Mru.cache_block mru dva block).2.queue = []) := by
  have hrev : mru.used = queueSum mru.queue.reverse := by
    unfold mruConsistent at h
    simp [queueSum, List.map_reverse] at h ⊢
    rwa [List.sum_reverse]
  have hcons := evictRec_consistent mru.queue.reverse mru.map mru.used mru.size dva.asize hrev
  by_cases hok : (evictRec mru.map mru.queue.reverse mru.used mru.size dva.asize).evOk = true
  · rw [cache_block_of_evOk mru dva block hok]
    have hfit : dva.asize ≤ mru.size := hcons.2.mp hok
    constructor
    · constructor
      · intro hh; cases hh
      · intro hlt; exfalso; omega
    · intro hh; cases hh
  · have hfalse : (evictRec mru.map mru.queue.reverse mru.used mru.size dva.asize).evOk = false :=
      Bool.eq_false_iff.mpr hok
    unfold Mru.cache_block
    rw [if_neg hok]
    constructor
    · constructor
      · intro _
        by_contra hle
        exact hok (hcons.2.mpr (Nat.le_of_not_lt hle))
      · intro _; rfl
    · intro _
      show (evictRec mru.map mru.queue.reverse mru.used mru.size dva.asize).rq.reverse = []
      rw [evictRec_fail_empty _ _ _ _ _ hfalse]
      rfl

/-- Witness for C9: a consistent empty two-unit tier rejects a three-unit
block with the out-of-evictable-items error. -/
theorem cache_block_exhaustion_witness :
    mruConsistent ⟨[], [], 2, 0⟩ ∧
    ((Mru.cache_block ⟨[], [], 2, 0⟩ ⟨0, 3⟩ [7]).1 = Except.error msgMruExhausted ↔
      (2 : Nat) < 3) ∧
    ((Mru.cache_block ⟨[], [], 2, 0⟩ ⟨0, 3⟩ [7]).1 = Except.error msgMruExhausted →
      (Mru.cache_block ⟨[], [], 2, 0⟩ ⟨0, 3⟩ [7]).2.queue = []) :=
  ⟨rfl,
    (cache_block_exhaustion ⟨[], [], 2, 0⟩ ⟨0, 3⟩ [7] rfl).1,
    (cache_block_exhaustion ⟨[], [], 2, 0⟩ ⟨0, 3⟩ [7] rfl).2⟩

/-- Reversal preserves the summed allocated sizes of a queue. -/
theorem queueSum_reverse (l : List DVAddr) : queueSum l.reverse = queueSum l := by
  unfold queueSum
  rw [List.map_reverse, List.sum_reverse]

/-- Summed allocated sizes of a queue with a new front element. -/
theorem queueSum_cons (d : DVAddr) (l : List DVAddr) :
    queueSum (d :: l) = d.asize + queueSum l := by
  simp [queueSum]

/-- A binding surviving `cache_block` is either the admitted address or was
already in the map (eviction only removes entries, insertion adds the new
address). -/
theorem cache_block_map_mono (mru : Mru) (dva : DVAddr) (block : List Nat)
    (a : DVAddr) (v : List Nat)
    (h : mlookup (Mru.cache_block mru dva block).2.map a = some v) :
    a = dva ∨ mlookup mru.map a = some v := by
  by_cases hok : (evictRec mru.map mru.queue.reverse mru.used mru.size dva.asize).evOk = true
  · rw [cache_block_of_evOk mru dva block hok] at h
    have h2 : mlookup
        (minsert (evictRec mru.map mru.queue.reverse mru.used mru.size dva.asize).map dva block)
        a = some v := h
    by_cases ha : a = dva
    · exact Or.inl ha
    · refine Or.inr ?_
      rw [mlookup_minsert_ne _ dva a block (fun hh => ha hh.symm)] at h2
      exact evictRec_map_mono _ _ _ _ _ a v h2
  · unfold Mru.cache_block at h
    rw [if_neg hok] at h
    exact Or.inr (evictRec_map_mono _ _ _ _ _ a v h)

/-- One cache read preserves tier exclusivity. -/
theorem read_preserves_exclusive (st : ArCache) (disk : Nat → Nat) (d : DVAddr)
    (h : TierExclusive st) : TierExclusive (st.read disk d).2.1 := by
  intro a
  unfold ArCache.read
  cases hm : mlookup st.mru.map d with
  | some block =>
    simp only []
    by_cases ha : d = a
    · subst ha
      exact Or.inl (mlookup_merase_self _ _)
    · rw [mlookup_merase_ne _ d a ha, mlookup_minsert_ne _ d a _ ha]
      exact h a
  | none =>
    cases hf : mlookup st.mfu.map d with
    | some cb =>
      simp only []
      by_cases ha : d = a
      · subst ha
        exact Or.inl hm
      · rw [mlookup_minsert_ne _ d a _ ha]
        exact h a
    | none =>
      simp only []
      cases hres : mlookup
          (Mru.cache_block st.mru d (Reader.read disk d.sector d.asize)).2.map a with
      | none => exact Or.inl rfl
      | some v =>
        rcases cache_block_map_mono st.mru d _ a v hres with ha | hold
        · subst ha
          exact Or.inr hf
        · rcases h a with h1 | h2
          · rw [h1] at hold; cases hold
          · exact Or.inr h2

/-- C4: for every sequence of cache reads starting from the fresh cache, a
given device virtual address has an entry in at most one of the two tiers:
promotion removes it from the recency tier while inserting into the frequency
tier, a frequency-tier hit does not touch the recency tier, and a full miss
inserts only into the recency tier. -/
theorem arc_tier_exclusive (disk : Nat → Nat) (dvas : List DVAddr) :
    TierExclusive (readSeq disk ArCache.new dvas) := by
  suffices hgen : ∀ st, TierExclusive st → TierExclusive (readSeq disk st dvas) from
    hgen ArCache.new (fun _ => Or.inl rfl)
  induction dvas with
  | nil => intro st h; exact h
  | cons d ds ih =>
    intro st h
    exact ih (st.read disk d).2.1 (read_preserves_exclusive st disk d h)

/-- C5: starting from a state where the address is in neither tier (and the
recency tier is consistently accounted with the block fitting its capacity),
the first read fetches the block from physical storage and the second read is
served without any physical storage access, moving the address from the
recency tier to the frequency tier with a reset usage counter. -/
theorem arc_promotion (st : ArCache) (disk : Nat → Nat) (dva : DVAddr)
    (hmru : mlookup st.mru.map dva = none)
    (hmfu : mlookup st.mfu.map dva = none)
    (hcons : mruConsistent st.mru)
    (hfit : dva.asize ≤ st.mru.size) :
    ∃ st1 st2,
      st.read disk dva = (Except.ok (Reader.read disk dva.sector dva.asize), st1, true) ∧
      st1.read disk dva = (Except.ok (Reader.read disk dva.sector dva.asize), st2, false) ∧
      mlookup st2.mru.map dva = none ∧
      mlookup st2.mfu.map dva = some (0, Reader.read disk dva.sector dva.asize) := by
  have hrev : st.mru.used = queueSum st.mru.queue.reverse := by
    rw [queueSum_reverse]; exact hcons
  have hok : (evictRec st.mru.map st.mru.queue.reverse st.mru.used st.mru.size dva.asize).evOk
      = true :=
    (evictRec_consistent _ _ _ _ _ hrev).2.mpr hfit
  have hcb := cache_block_of_evOk st.mru dva (Reader.read disk dva.sector dva.asize) hok
  refine ⟨⟨(Mru.cache_block st.mru dva (Reader.read disk dva.sector dva.asize)).2, st.mfu⟩,
    ⟨⟨merase (Mru.cache_block st.mru dva (Reader.read disk dva.sector dva.asize)).2.map dva,
        (Mru.cache_block st.mru dva (Reader.read disk dva.sector dva.asize)).2.queue,
        (Mru.cache_block st.mru dva (Reader.read disk dva.sector dva.asize)).2.size,
        (Mru.cache_block st.mru dva (Reader.read disk dva.sector dva.asize)).2.used⟩,
      ⟨minsert st.mfu.map dva (0, Reader.read disk dva.sector dva.asize), st.mfu.size,
        st.mfu.used⟩⟩,
    ?_, ?_, ?_, ?_⟩
  · unfold ArCache.read
    rw [hmru, hmfu]
    simp only []
    rw [hcb]
  · unfold ArCache.read
    rw [hcb]
    simp only [mlookup_minsert_self]
  · rw [hcb]
    exact mlookup_merase_self _ _
  · exact mlookup_minsert_self _ _ _

/-- Witness for C5: from the fresh cache on an all-zero disk, two successive
reads of the same address promote it from the recency to the frequency tier,
with the second read avoiding physical storage. -/
theorem arc_promotion_witness :
    mlookup ArCache.new.mru.map ⟨0, 1⟩ = none ∧
    mlookup ArCache.new.mfu.map ⟨0, 1⟩ = none ∧
    mruConsistent ArCache.new.mru ∧
    (DVAddr.mk 0 1).asize ≤ ArCache.new.mru.size ∧
    ∃ st1 st2,
      ArCache.new.read (fun _ => 0) ⟨0, 1⟩ =
        (Except.ok (Reader.read (fun _ => 0) 0 1), st1, true) ∧
      st1.read (fun _ => 0) ⟨0, 1⟩ =
        (Except.ok (Reader.read (fun _ => 0) 0 1), st2, false) ∧
      mlookup st2.mru.map ⟨0, 1⟩ = none ∧
      mlookup st2.mfu.map ⟨0, 1⟩ = some (0, Reader.read (fun _ => 0) 0 1) :=
  ⟨rfl, rfl, rfl, by decide,
    arc_promotion ArCache.new (fun _ => 0) ⟨0, 1⟩ rfl rfl rfl (by decide)⟩

/-- A successful or failed admission preserves accounting consistency. -/
theorem cache_block_consistent (mru : Mru) (dva : DVAddr) (block : List Nat)
    (h : mruConsistent mru) : mruConsistent (Mru.cache_block mru dva block).2 := by
  have hrev : mru.used = queueSum mru.queue.reverse := by
    rw [queueSum_reverse]; exact h
  have hc := evictRec_consistent mru.queue.reverse mru.map mru.used mru.size dva.asize hrev
  by_cases hok : (evictRec mru.map mru.queue.reverse mru.used mru.size dva.asize).evOk = true
  · rw [cache_block_of_evOk mru dva block hok]
    show (evictRec mru.map mru.queue.reverse mru.used mru.size dva.asize).used + dva.asize =
      queueSum (dva :: (evictRec mru.map mru.queue.reverse mru.used mru.size dva.asize).rq.reverse)
    rw [queueSum_cons, queueSum_reverse, ← hc.1]
    omega
  · unfold Mru.cache_block
    rw [if_neg hok]
    show (evictRec mru.map mru.queue.reverse mru.used mru.size dva.asize).used =
      queueSum (evictRec mru.map mru.queue.reverse mru.used mru.size dva.asize).rq.reverse
    rw [queueSum_reverse, ← hc.1]

/-- One cache read preserves accounting consistency of the recency tier. -/
theorem read_preserves_consistent (st : ArCache) (disk : Nat → Nat) (d : DVAddr)
    (h : mruConsistent st.mru) : mruConsistent (st.read disk d).2.1.mru := by
  unfold ArCache.read
  cases hm : mlookup st.mru.map d with
  | some block => exact h
  | none =>
    cases hf : mlookup st.mfu.map d with
    | some cb => exact h
    | none =>
      simp only []
      exact cache_block_consistent st.mru d (Reader.read disk d.sector d.asize) h

/-- C10: promotion from the recency to the frequency tier removes the address
from the recency-tier map but leaves its queue entry in place and does not
decrement the used counter; consequently, over every sequence of cache reads
from the fresh cache, the recency tier used counter equals the sum of
allocated sizes of the addresses in its queue (not of the entries in its map),
so a promoted block keeps counting against recency capacity until its stale
queue entry is popped by a later eviction. -/
theorem mru_used_tracks_queue :
    (∀ (disk : Nat → Nat) (dvas : List DVAddr),
      mruConsistent (readSeq disk ArCache.new dvas).mru) ∧
    (∀ (st : ArCache) (disk : Nat → Nat) (dva : DVAddr) (b : List Nat),
      mlookup st.mru.map dva = some b →
        (st.read disk dva).2.1.mru.queue = st.mru.queue ∧
        (st.read disk dva).2.1.mru.used = st.mru.used ∧
        mlookup (st.read disk dva).2.1.mru.map dva = none) := by
  constructor
  · intro disk dvas
    suffices hgen : ∀ st, mruConsistent st.mru →
        mruConsistent (readSeq disk st dvas).mru from hgen ArCache.new rfl
    induction dvas with
    | nil => intro st h; exact h
    | cons d ds ih =>
      intro st h
      exact ih (st.read disk d).2.1 (read_preserves_consistent st disk d h)
  · intro st disk dva b h
    unfold ArCache.read
    rw [h]
    exact ⟨rfl, rfl, mlookup_merase_self _ _⟩

/-- Witness for C10: a cache whose recency tier holds one address; reading it
promotes it, leaving the queue and used counter unchanged while removing the
map entry. -/
theorem mru_used_tracks_queue_witness :
    mlookup (⟨⟨[(⟨0, 1⟩, [9])], [⟨0, 1⟩], 1000, 1⟩, Mfu.new⟩ : ArCache).mru.map ⟨0, 1⟩ =
      some [9] ∧
    ((⟨⟨[(⟨0, 1⟩, [9])], [⟨0, 1⟩], 1000, 1⟩, Mfu.new⟩ : ArCache).read (fun _ => 0)
        ⟨0, 1⟩).2.1.mru.queue = [⟨0, 1⟩] ∧
    ((⟨⟨[(⟨0, 1⟩, [9])], [⟨0, 1⟩], 1000, 1⟩, Mfu.new⟩ : ArCache).read (fun _ => 0)
        ⟨0, 1⟩).2.1.mru.used = 1 ∧
    mlookup ((⟨⟨[(⟨0, 1⟩, [9])], [⟨0, 1⟩], 1000, 1⟩, Mfu.new⟩ : ArCache).read (fun _ => 0)
        ⟨0, 1⟩).2.1.mru.map ⟨0, 1⟩ = none :=
  have h := mru_used_tracks_queue.2 ⟨⟨[(⟨0, 1⟩, [9])], [⟨0, 1⟩], 1000, 1⟩, Mfu.new⟩
    (fun _ => 0) ⟨0, 1⟩ [9] rfl
  ⟨rfl, h.1, h.2.1, h.2.2⟩

/-- The byte-copy loop preserves the destination length. -/
theorem copyN_length (n : Nat) :
    ∀ dst dst_i cpy, (copyN dst dst_i cpy n).1.length = dst.length := by
  induction n with
  | zero => intro dst dst_i cpy; rfl
  | succ n ih =>
    intro dst dst_i cpy
    unfold copyN
    by_cases hc : dst.length ≤ dst_i
    · rw [if_pos hc]
    · rw [if_neg hc, ih, List.length_set]

/-- The decoder loop preserves the destination length. -/
theorem decodeLoop_length (fuel : Nat) :
    ∀ src dst src_i dst_i copymap copymask d s,
      decodeLoop src dst src_i dst_i copymap copymask fuel = some (d, s) →
      d.length = dst.length := by
  induction fuel with
  | zero => intro src dst src_i dst_i copymap copymask d s h; cases h
  | succ fuel ih =>
    intro src dst src_i dst_i copymap copymask d s h
    unfold decodeLoop at h
    by_cases hd : dst_i < dst.length
    · rw [if_pos hd] at h
      cases hstep : decStep src src_i copymap (copymask <<< 1) with
      | none => rw [hstep] at h; cases h
      | some t =>
        obtain ⟨cm2, m2, si2⟩ := t
        rw [hstep] at h
        simp only [] at h
        by_cases hflag : cm2 &&& (m2 % 256) ≠ 0
        · rw [if_pos hflag] at h
          cases h0 : src.get? si2 with
          | none => rw [h0] at h; cases h
          | some s0 =>
            cases h1 : src.get? (si2 + 1) with
            | none => rw [h0, h1] at h; cases h
            | some s1 =>
              rw [h0, h1] at h
              simp only [] at h
              by_cases hoff : dst_i < ((s0 <<< NBBY) ||| s1) &&& OFFSET_MASK
              · rw [if_pos hoff] at h
                injection h with h
                injection h with h _
                rw [← h]
              · rw [if_neg hoff] at h
                have hrec := ih _ _ _ _ _ _ _ _ h
                rw [hrec, copyN_length]
        · rw [if_neg hflag] at h
          cases h0 : src.get? si2 with
          | none => rw [h0] at h; cases h
          | some b =>
            rw [h0] at h
            have hrec := ih _ _ _ _ _ _ _ _ h
            rw [hrec, List.length_set]
    · rw [if_neg hd] at h
      injection h with h
      injection h with h _
      rw [← h]

/-- C7: `read_block` returns the raw sector bytes unchanged when the block
pointer carries the compression-off code 2; for either of the two LZJB codes
1 and 3 it returns the bytes decoded into a buffer of logical-size times 512
bytes (of exactly that length); and for any other code it fails with the
unsupported-compression error without attempting any decompression. -/
theorem read_block_modes (disk : Nat → Nat) (bp : BlockPtr) :
    (bp.compression = 2 →
      Reader.read_block disk bp = some (Except.ok (Reader.read_dva disk (bp.dvas 0)))) ∧
    (bp.compression = 1 ∨ bp.compression = 3 →
      Reader.read_block disk bp =
        (LzjbDecoder.read (Reader.read_dva disk (bp.dvas 0))
          (List.replicate (bp.lsize * 512) 0)).map (fun r => Except.ok r.1) ∧
      (∀ d s, LzjbDecoder.read (Reader.read_dva disk (bp.dvas 0))
          (List.replicate (bp.lsize * 512) 0) = some (d, s) → d.length = bp.lsize * 512)) ∧
    (bp.compression ≠ 2 → bp.compression ≠ 1 → bp.compression ≠ 3 →
      Reader.read_block disk bp = some (Except.error msgUnsupportedCompression)) := by
  refine ⟨?_, ?_, ?_⟩
  · intro h2
    unfold Reader.read_block
    rw [if_pos h2]
  · intro h13
    have hn2 : ¬bp.compression = 2 := by rcases h13 with h | h <;> omega
    constructor
    · unfold Reader.read_block
      rw [if_neg hn2, if_pos h13]
      cases hdec : LzjbDecoder.read (Reader.read_dva disk (bp.dvas 0))
          (List.replicate (bp.lsize * 512) 0) with
      | none => rfl
      | some r => rfl
    · intro d s hds
      have hlen := decodeLoop_length _ _ _ _ _ _ _ _ _ hds
      rw [List.length_replicate] at hlen
      exact hlen
  · intro hn2 hn1 hn3
    unfold Reader.read_block
    rw [if_neg hn2, if_neg (by rintro (h | h); exact hn1 h; exact hn3 h)]

/-- Witness for C7: three concrete block pointers of zero logical and
allocated size, one per compression branch. -/
theorem read_block_modes_witness :
    Reader.read_block (fun _ => 0) ⟨fun _ => ⟨0, 0⟩, 2, 0⟩ = some (Except.ok []) ∧
    Reader.read_block (fun _ => 0) ⟨fun _ => ⟨0, 0⟩, 1, 0⟩ = some (Except.ok []) ∧
    Reader.read_block (fun _ => 0) ⟨fun _ => ⟨0, 0⟩, 7, 0⟩ =
      some (Except.error msgUnsupportedCompression) :=
  ⟨(read_block_modes (fun _ => 0) ⟨fun _ => ⟨0, 0⟩, 2, 0⟩).1 rfl,
    ((read_block_modes (fun _ => 0) ⟨fun _ => ⟨0, 0⟩, 1, 0⟩).2.1 (Or.inl rfl)).1,
    (read_block_modes (fun _ => 0) ⟨fun _ => ⟨0, 0⟩, 7, 0⟩).2.2 (by decide) (by decide)
      (by decide)⟩
